import Mathlib

/-!
Verification of the client-side matching/preference logic of
`src/static/js/app.js` (restaurant group-matching app).

JavaScript `Map` objects are embedded as association lists (`List (K × V)`)
with insertion-order semantics: `set` on an existing key replaces its value
in place, `set` on a fresh key appends, `delete` removes, `size` is the
length.  JavaScript numbers used as ratings are embedded as `ℚ`; user ids
and restaurant ids (always integers in the app, with `-1` as the sentinel
for "no selected user") as `ℤ`.
-/

namespace RestaurantApp

/-- Lookup (`Map.prototype.get`): first entry with the given key. -/
def mapGet {K V : Type} [DecidableEq K] (m : List (K × V)) (k : K) : Option V :=
  match m with
  | [] => none
  | (k', v) :: rest => if k' = k then some v else mapGet rest k

/-- Key-membership (`Map.prototype.has`). -/
def mapHas {K V : Type} [DecidableEq K] (m : List (K × V)) (k : K) : Bool :=
  (mapGet m k).isSome

/-- Value replacement for an existing key, preserving entry order. -/
def replaceKey {K V : Type} [DecidableEq K] (m : List (K × V)) (k : K) (v : V) :
    List (K × V) :=
  m.map (fun p => if p.1 = k then (k, v) else p)

/-- Insertion (`Map.prototype.set`): replace in place when the key is
present, append otherwise. -/
def mapSet {K V : Type} [DecidableEq K] (m : List (K × V)) (k : K) (v : V) :
    List (K × V) :=
  if mapHas m k then replaceKey m k v else m ++ [(k, v)]

/-- Deletion (`Map.prototype.delete`). -/
def mapDelete {K V : Type} [DecidableEq K] (m : List (K × V)) (k : K) :
    List (K × V) :=
  m.filter (fun p => p.1 ≠ k)

/-- Well-formedness of a JS map image: no duplicate keys (true of every
map reachable through the `mapSet` / `mapDelete` operations). -/
def keysNodup {K V : Type} (m : List (K × V)) : Prop :=
  (m.map Prod.fst).Nodup

/-- A restaurant row as served by the backend catalog
(id, name, cuisine tags in one comma-separated string, price tier). -/
structure Restaurant where
  id : ℤ
  name : String
  cuisine : String
  price : ℤ
deriving DecidableEq

/-- One accumulator step of extractCuisines: add a trimmed tag to the
cuisine set when nonempty (JS `Set.add` keeps the first insertion). -/
def addTag (acc : List String) (c : String) : List String :=
  if c ≠ "" then (if c ∈ acc then acc else acc ++ [c]) else acc

/-- extractCuisines from app.js: split each restaurant's cuisine string on
commas, trim each tag, drop empty tags, deduplicate through a Set, and
sort the resulting array. -/
def extractCuisines (allRestaurants : List Restaurant) : List String :=
  let cuisineSet := allRestaurants.foldl
    (fun acc r => ((r.cuisine.splitOn ",").map String.trim).foldl addTag acc) []
  cuisineSet.mergeSort (fun a b => !decide (b < a))

/-- Base-preference selection state of the create screen: the global
maps `restaurantRatings` and `cuisineRatings`. -/
structure BaseState where
  restaurantRatings : List (ℤ × ℚ)
  cuisineRatings : List (String × ℚ)
deriving DecidableEq

/-- toggleRestaurant from app.js (render calls omitted): delete the id
when rated, otherwise rate it with the default 5.0. -/
def toggleRestaurant (s : BaseState) (id : ℤ) : BaseState :=
  if mapHas s.restaurantRatings id
  then { s with restaurantRatings := mapDelete s.restaurantRatings id }
  else { s with restaurantRatings := mapSet s.restaurantRatings id 5 }

/-- toggleCuisine from app.js (render calls omitted). -/
def toggleCuisine (s : BaseState) (cuisine : String) : BaseState :=
  if mapHas s.cuisineRatings cuisine
  then { s with cuisineRatings := mapDelete s.cuisineRatings cuisine }
  else { s with cuisineRatings := mapSet s.cuisineRatings cuisine 5 }

/-- The target of a day-of rating entry: the stored object's `type` field
('restaurant' or 'cuisine') together with its `id` field. -/
inductive DayofTarget where
  | restaurant (id : ℤ)
  | cuisine (name : String)
deriving DecidableEq

/-- A value of a user's day-of rating map: `{type, id, rating}`. -/
structure DayofEntry where
  target : DayofTarget
  rating : ℚ
deriving DecidableEq

/-- A user's day-of rating map, keyed by `r-{id}` / `c-{cuisine}`. -/
abbrev DayofMap : Type := List (String × DayofEntry)

/-- Day-of editing state: the `dayofRatingsByUser` map and the
`lastSelectedUser` global (`-1` when nobody is selected). -/
structure DayofState where
  byUser : List (ℤ × DayofMap)
  lastSelectedUser : ℤ
deriving DecidableEq

/-- Key of a restaurant-keyed day-of rating: `r-${id}`. -/
def restKey (id : ℤ) : String := "r-" ++ toString id

/-- Key of a cuisine-keyed day-of rating: `c-${cuisine}`. -/
def cuisKey (cuisine : String) : String := "c-" ++ cuisine

/-- removeDayofRating from app.js (render calls omitted): delete the key
from the last-selected user's day-of map; a no-op when that user has no
map. -/
def removeDayofRating (s : DayofState) (key : String) : DayofState :=
  match mapGet s.byUser s.lastSelectedUser with
  | none => s
  | some m =>
    let m2 := mapDelete m key
    { s with byUser := mapSet s.byUser s.lastSelectedUser m2 }

/-- updateDayofRating from app.js (DOM update omitted): overwrite the
rating value of an existing entry; a no-op when the user has no map or
the key is absent. -/
def updateDayofRating (s : DayofState) (key : String) (value : ℚ) :
    DayofState :=
  match mapGet s.byUser s.lastSelectedUser with
  | none => s
  | some m =>
    match mapGet m key with
    | none => s
    | some e =>
      let m2 := mapSet m key { e with rating := value }
      { s with byUser := mapSet s.byUser s.lastSelectedUser m2 }

/-- The alert message shown when a 4th day-of rating is attempted. -/
def capacityMsg : String := "Maximum 3 day-of ratings allowed!"

/-- toggleDayofCuisine from app.js (render calls omitted): ensure the
last-selected user has a day-of map, then toggle the cuisine key —
removing it when present, rejecting with the capacity alert when the map
already holds 3 entries, adding it with rating 5.0 otherwise.  Returns
the new state and the alert, if any. -/
def toggleDayofCuisine (s : DayofState) (cuisine : String) :
    DayofState × Option String :=
  let key := cuisKey cuisine
  let byUser := if mapHas s.byUser s.lastSelectedUser then s.byUser
                else mapSet s.byUser s.lastSelectedUser []
  let m := (mapGet byUser s.lastSelectedUser).getD []
  if mapHas m key then
    (removeDayofRating { s with byUser := byUser } key, none)
  else if 3 ≤ m.length then
    ({ s with byUser := byUser }, some capacityMsg)
  else
    let m2 := mapSet m key ⟨.cuisine cuisine, 5⟩
    ({ s with byUser := mapSet byUser s.lastSelectedUser m2 }, none)

/-- toggleDayofRestaurant from app.js (render calls omitted), analogous
to toggleDayofCuisine with key `r-${id}`. -/
def toggleDayofRestaurant (s : DayofState) (id : ℤ) :
    DayofState × Option String :=
  let key := restKey id
  let byUser := if mapHas s.byUser s.lastSelectedUser then s.byUser
                else mapSet s.byUser s.lastSelectedUser []
  let m := (mapGet byUser s.lastSelectedUser).getD []
  if mapHas m key then
    (removeDayofRating { s with byUser := byUser } key, none)
  else if 3 ≤ m.length then
    ({ s with byUser := byUser }, some capacityMsg)
  else
    let m2 := mapSet m key ⟨.restaurant id, 5⟩
    ({ s with byUser := mapSet byUser s.lastSelectedUser m2 }, none)

/-- One row of the backend matching response as consumed by
renderMatchingList: match[0] the restaurant, match[1] the matching
cuisine label, match[2] the raw group score. -/
abbrev MatchEntry : Type := String × String × ℚ

/-- Math.max over a spread array, evaluated by renderMatchingList only on
nonempty input, where this fold agrees with it (JS yields -Infinity on an
empty spread). -/
def jsMax (l : List ℚ) : ℚ :=
  match l with
  | [] => 0
  | x :: xs => xs.foldl max x

/-- Result of rendering the matching screen: the no-matches empty state,
or the list of match cards (restaurant, displayed score).  For an
all-zero list `ℚ` evaluates `10 * 0 / 0` to 0 where JS shows NaN; the
branch taken, which is what the theorems below are about, is the same. -/
inductive RenderResult where
  | noMatches : RenderResult
  | cards : List (String × ℚ) → RenderResult
deriving DecidableEq

/-- renderMatchingList from app.js (HTML omitted): an empty or missing
result list renders the empty state; otherwise every row is rendered as a
card with display score `10 * match[2] / currMax`.  The second
empty-state branch (`if (!html)`) is unreachable because every row yields
a nonempty card string. -/
def renderMatchingList (matching : List MatchEntry) : RenderResult :=
  match matching with
  | [] => .noMatches
  | first :: rest =>
    let currMax := jsMax ((first :: rest).map (fun m => m.2.2))
    .cards ((first :: rest).map (fun m => (m.1, 10 * m.2.2 / currMax)))

/-- A rating entry of the match request payload: `{restaurant_id,
rating}` or `{cuisine, rating}`. -/
inductive OverrideRating where
  | restaurant (id : ℤ) (rating : ℚ)
  | cuisine (name : String) (rating : ℚ)
deriving DecidableEq

/-- Conversion of one stored day-of entry into a payload rating (the
forEach inside callMagic). -/
def convertEntry (e : DayofEntry) : OverrideRating :=
  match e.target with
  | .restaurant id => .restaurant id e.rating
  | .cuisine c => .cuisine c e.rating

/-- The ratings list callMagic sends for one user: the user's day-of
ratings when the user has a day-of map, the empty list otherwise. -/
def sentRatings (byUser : List (ℤ × DayofMap)) (userId : ℤ) :
    List OverrideRating :=
  match mapGet byUser userId with
  | some dayofRatings => dayofRatings.map (fun p => convertEntry p.2)
  | none => []

/-- The user_ratings payload built by callMagic: one row per selected
user carrying that user's day-of ratings, or an empty list when the user
has no day-of map. -/
def buildUserRatings (userIds : List ℤ) (byUser : List (ℤ × DayofMap)) :
    List (ℤ × List OverrideRating) :=
  userIds.map (fun userId => (userId, sentRatings byUser userId))

/-- The backend's response to the matching POST as seen by callMagic. -/
inductive FetchResult where
  | ok (body : List MatchEntry)
  | err (msg : String)
deriving DecidableEq

/-- Outcome of one callMagic invocation: the early insufficient-users
alert (no payload built, no request sent), the error alert of a failed
request, or a rendered result. -/
inductive MagicOutcome where
  | insufficientUsers (msg : String)
  | requestError (payload : List (ℤ × List OverrideRating)) (msg : String)
  | success (payload : List (ℤ × List OverrideRating))
      (result : RenderResult)
deriving DecidableEq

/-- The alert message of the minimum-group-size guard in callMagic. -/
def insufficientMsg : String :=
  "Please select at least 2 users to generate matches"

/-- callMagic from app.js: guard on fewer than 2 selected users (the
payload is then never built and no request is sent — the outcome ignores
the response), otherwise POST the built payload; a non-ok response raises
and is alerted, an ok response body is rendered by renderMatchingList. -/
def callMagic (selectedUsers : List ℤ) (byUser : List (ℤ × DayofMap))
    (response : FetchResult) : MagicOutcome :=
  if selectedUsers.length < 2 then .insufficientUsers insufficientMsg
  else
    let payload := buildUserRatings selectedUsers byUser
    match response with
    | .err e => .requestError payload e
    | .ok body => .success payload (renderMatchingList body)

/-- Modelled from the spec: the backend preference resolver (§4.2 step 1)
is not under src/; only its caller callMagic is.  callMagic always sends
a ratings list for every selected user and documents the wire protocol in
a comment — "If no day-of ratings, send empty array (backend will use
base preferences)".  A user's effective preference set is therefore the
sent list when nonempty and the stored base preferences when the sent
list is empty. -/
def effectivePreferences (base sent : List OverrideRating) :
    List OverrideRating :=
  if sent = [] then base else sent

/-- Modelled from the spec: the group aggregator (§4.3) is backend code
not under src/.  The group score of a restaurant with at least one
contributing user is the product of all contributing users' effective
scores. -/
def groupScore (contributions : List ℚ) : ℚ := contributions.prod

end RestaurantApp

namespace RestaurantApp

variable {K V : Type} [DecidableEq K]

theorem mapGet_eq_none_of_not_has (m : List (K × V)) (k : K)
    (h : ¬ mapHas m k = true) : mapGet m k = none := by
  unfold mapHas at h
  cases hg : mapGet m k with
  | none => rfl
  | some v => rw [hg] at h; simp at h

theorem mapHas_of_get_some (m : List (K × V)) (k : K) (v : V)
    (h : mapGet m k = some v) : mapHas m k = true := by
  unfold mapHas; rw [h]; rfl

theorem mapGet_replaceKey_ne (m : List (K × V)) (k k' : K) (v : V)
    (h : k' ≠ k) : mapGet (replaceKey m k v) k' = mapGet m k' := by
  induction m with
  | nil => rfl
  | cons p rest ih =>
    simp only [replaceKey, List.map_cons] at ih ⊢
    by_cases hp : p.1 = k
    · rw [if_pos hp]
      simp only [mapGet]
      rw [if_neg (fun hc => h hc.symm), if_neg (fun hc => h (hp ▸ hc).symm), ih]
    · rw [if_neg hp]
      simp only [mapGet]
      by_cases hp' : p.1 = k'
      · rw [if_pos hp', if_pos hp']
      · rw [if_neg hp', if_neg hp', ih]

theorem mapGet_replaceKey_self (m : List (K × V)) (k : K) (v : V)
    (h : mapHas m k = true) : mapGet (replaceKey m k v) k = some v := by
  induction m with
  | nil => simp [mapHas, mapGet] at h
  | cons p rest ih =>
    simp only [replaceKey, List.map_cons] at ih ⊢
    by_cases hp : p.1 = k
    · rw [if_pos hp]; simp [mapGet]
    · rw [if_neg hp]
      simp only [mapGet, if_neg hp]
      apply ih
      simp only [mapHas, mapGet, if_neg hp] at h
      exact h

theorem mapGet_append_of_none (m l : List (K × V)) (k : K)
    (h : mapGet m k = none) : mapGet (m ++ l) k = mapGet l k := by
  induction m with
  | nil => rfl
  | cons p rest ih =>
    simp only [mapGet] at h ⊢
    by_cases hp : p.1 = k
    · rw [if_pos hp] at h; exact absurd h (by simp)
    · rw [if_neg hp] at h
      rw [if_neg hp]
      exact ih h

theorem mapGet_append_of_not_has (m l : List (K × V)) (k : K)
    (h : ¬ mapHas m k = true) : mapGet (m ++ l) k = mapGet l k :=
  mapGet_append_of_none m l k (mapGet_eq_none_of_not_has m k h)

theorem mapGet_append_of_some (m l : List (K × V)) (k : K) (v : V)
    (h : mapGet m k = some v) : mapGet (m ++ l) k = some v := by
  induction m with
  | nil => simp [mapGet] at h
  | cons p rest ih =>
    simp only [mapGet] at h ⊢
    by_cases hp : p.1 = k
    · rw [if_pos hp] at h ⊢; exact h
    · rw [if_neg hp] at h ⊢; exact ih h

theorem mapGet_set_self (m : List (K × V)) (k : K) (v : V) :
    mapGet (mapSet m k v) k = some v := by
  unfold mapSet
  by_cases h : mapHas m k = true
  · rw [if_pos h]; exact mapGet_replaceKey_self m k v h
  · rw [if_neg h, mapGet_append_of_not_has m _ k h]
    simp [mapGet]

theorem mapGet_set_ne (m : List (K × V)) (k k' : K) (v : V) (h : k' ≠ k) :
    mapGet (mapSet m k v) k' = mapGet m k' := by
  unfold mapSet
  by_cases hh : mapHas m k = true
  · rw [if_pos hh]; exact mapGet_replaceKey_ne m k k' v h
  · rw [if_neg hh]
    cases hg : mapGet m k' with
    | none =>
      rw [mapGet_append_of_none m _ k' hg]
      simp only [mapGet]
      rw [if_neg (Ne.symm h)]
    | some w =>
      exact mapGet_append_of_some m _ k' w hg

theorem mapGet_delete_self (m : List (K × V)) (k : K) :
    mapGet (mapDelete m k) k = none := by
  induction m with
  | nil => rfl
  | cons p rest ih =>
    by_cases hp : p.1 = k
    · have hdrop : mapDelete (p :: rest) k = mapDelete rest k := by
        simp [mapDelete, List.filter_cons, hp]
      rw [hdrop]; exact ih
    · have hkeep : mapDelete (p :: rest) k = p :: mapDelete rest k := by
        simp [mapDelete, List.filter_cons, hp]
      rw [hkeep]
      simp only [mapGet, if_neg hp]
      exact ih

theorem mapGet_delete_ne (m : List (K × V)) (k k' : K) (h : k' ≠ k) :
    mapGet (mapDelete m k) k' = mapGet m k' := by
  induction m with
  | nil => rfl
  | cons p rest ih =>
    by_cases hp : p.1 = k
    · have hdrop : mapDelete (p :: rest) k = mapDelete rest k := by
        simp [mapDelete, List.filter_cons, hp]
      have hp' : ¬ p.1 = k' := by rw [hp]; exact fun hc => h hc.symm
      rw [hdrop]
      simp only [mapGet, if_neg hp']
      exact ih
    · have hkeep : mapDelete (p :: rest) k = p :: mapDelete rest k := by
        simp [mapDelete, List.filter_cons, hp]
      rw [hkeep]
      simp only [mapGet]
      by_cases hp' : p.1 = k'
      · rw [if_pos hp', if_pos hp']
      · rw [if_neg hp', if_neg hp']
        exact ih

theorem mapDelete_of_get_none (m : List (K × V)) (k : K)
    (h : mapGet m k = none) : mapDelete m k = m := by
  induction m with
  | nil => rfl
  | cons p rest ih =>
    simp only [mapGet] at h
    by_cases hp : p.1 = k
    · rw [if_pos hp] at h; exact absurd h (by simp)
    · rw [if_neg hp] at h
      have hkeep : mapDelete (p :: rest) k = p :: mapDelete rest k := by
        simp [mapDelete, List.filter_cons, hp]
      rw [hkeep, ih h]

theorem replaceKey_of_not_mem (m : List (K × V)) (k : K) (v : V)
    (h : k ∉ m.map Prod.fst) : replaceKey m k v = m := by
  induction m with
  | nil => rfl
  | cons q qr ih =>
    simp only [List.map_cons, List.mem_cons, not_or] at h
    simp only [replaceKey, List.map_cons] at ih ⊢
    rw [if_neg (fun hc => h.1 hc.symm), ih h.2]

theorem replaceKey_of_get_some (m : List (K × V)) (k : K) (v : V) :
    keysNodup m → mapGet m k = some v → replaceKey m k v = m := by
  induction m with
  | nil => intro _ h; simp [mapGet] at h
  | cons p rest ih =>
    intro hnd h
    simp only [keysNodup, List.map_cons, List.nodup_cons] at hnd
    simp only [mapGet] at h
    simp only [replaceKey, List.map_cons]
    by_cases hp : p.1 = k
    · rw [if_pos hp]
      rw [if_pos hp] at h
      have hv : v = p.2 := (Option.some.inj h).symm
      have hrest : replaceKey rest k v = rest :=
        replaceKey_of_not_mem rest k v (hp ▸ hnd.1)
      simp only [replaceKey] at hrest
      rw [hrest]
      have hpv : (k, v) = p := by
        obtain ⟨p1, p2⟩ := p
        simp only at hp hv
        rw [hp, hv]
      rw [hpv]
    · rw [if_neg hp]
      rw [if_neg hp] at h
      have hr := ih hnd.2 h
      simp only [replaceKey] at hr
      rw [hr]

theorem mapSet_of_get_self (m : List (K × V)) (k : K) (v : V)
    (hnd : keysNodup m) (h : mapGet m k = some v) : mapSet m k v = m := by
  unfold mapSet
  rw [if_pos (mapHas_of_get_some m k v h)]
  exact replaceKey_of_get_some m k v hnd h

theorem foldl_max_of_le (xs : List ℚ) (a : ℚ) (h : ∀ e ∈ xs, e ≤ a) :
    xs.foldl max a = a := by
  induction xs with
  | nil => rfl
  | cons y ys ih =>
    simp only [List.foldl_cons]
    rw [max_eq_left (h y (List.mem_cons_self y ys))]
    exact ih (fun e he => h e (List.mem_cons_of_mem y he))

theorem le_foldl_max (xs : List ℚ) (a : ℚ) : a ≤ xs.foldl max a := by
  induction xs generalizing a with
  | nil => exact le_refl a
  | cons y ys ih =>
    simp only [List.foldl_cons]
    exact le_trans (le_max_left a y) (ih (max a y))

theorem mem_addTag (acc : List String) (c x : String) :
    x ∈ addTag acc c ↔ x ∈ acc ∨ (x = c ∧ c ≠ "") := by
  unfold addTag
  by_cases hc : c ≠ ""
  · rw [if_pos hc]
    by_cases hm : c ∈ acc
    · rw [if_pos hm]
      constructor
      · exact fun h => Or.inl h
      · rintro (h | ⟨rfl, _⟩)
        · exact h
        · exact hm
    · rw [if_neg hm]
      simp only [List.mem_append, List.mem_singleton]
      constructor
      · rintro (h | rfl)
        · exact Or.inl h
        · exact Or.inr ⟨rfl, hc⟩
      · rintro (h | ⟨rfl, _⟩)
        · exact Or.inl h
        · exact Or.inr rfl
  · rw [if_neg hc]
    push_neg at hc
    constructor
    · exact fun h => Or.inl h
    · rintro (h | ⟨_, hne⟩)
      · exact h
      · exact absurd hc hne

theorem addTag_nodup (acc : List String) (c : String) (h : acc.Nodup) :
    (addTag acc c).Nodup := by
  unfold addTag
  by_cases hc : c ≠ ""
  · rw [if_pos hc]
    by_cases hm : c ∈ acc
    · rw [if_pos hm]; exact h
    · rw [if_neg hm]
      simp [List.nodup_append, h, hm]
  · rw [if_neg hc]; exact h

theorem foldl_addTag_nodup (l : List String) (acc : List String)
    (h : acc.Nodup) : (l.foldl addTag acc).Nodup := by
  induction l generalizing acc with
  | nil => exact h
  | cons c cs ih => exact ih (addTag acc c) (addTag_nodup acc c h)

theorem mem_foldl_addTag (l : List String) (acc : List String) (x : String) :
    x ∈ l.foldl addTag acc ↔ x ∈ acc ∨ (x ∈ l ∧ x ≠ "") := by
  induction l generalizing acc with
  | nil => simp
  | cons c cs ih =>
    simp only [List.foldl_cons, ih (addTag acc c), mem_addTag, List.mem_cons]
    constructor
    · rintro ((h | ⟨rfl, hc⟩) | ⟨hm, hx⟩)
      · exact Or.inl h
      · exact Or.inr ⟨Or.inl rfl, hc⟩
      · exact Or.inr ⟨Or.inr hm, hx⟩
    · rintro (h | ⟨(rfl | hm), hx⟩)
      · exact Or.inl (Or.inl h)
      · exact Or.inl (Or.inr ⟨rfl, hx⟩)
      · exact Or.inr ⟨hm, hx⟩

/-- C3 fails on the code: renderMatchingList has no division-by-zero
guard — a non-empty all-zero result list is rendered as match cards (with
a division by the zero maximum), not as the "no matches" empty state that
an empty result list gets. -/
theorem c3_counterexample :
    renderMatchingList [("A", "x", 0), ("B", "y", 0)] ≠
      RenderResult.noMatches ∧
    renderMatchingList [] = RenderResult.noMatches := by
  constructor
  · simp [renderMatchingList]
  · rfl

/-- C3 amended: the display-score computation treats only an empty (or
missing) result list as "no matches"; a non-empty all-zero result set
still takes the card-rendering path, dividing by a zero maximum. -/
theorem c3_no_matches_iff_empty (matching : List MatchEntry) :
    renderMatchingList matching = RenderResult.noMatches ↔ matching = [] := by
  cases matching with
  | nil => simp [renderMatchingList]
  | cons first rest => simp [renderMatchingList]

/-- C4: callMagic with fewer than 2 selected users (selectedUsers is a JS
Set, so its elements are distinct) alerts the insufficient-users message
and issues no request: the outcome is independent of any response and
carries no payload. -/
theorem c4_insufficient_users (selectedUsers : List ℤ)
    (byUser : List (ℤ × DayofMap)) (response : FetchResult)
    (h : selectedUsers.length < 2) :
    callMagic selectedUsers byUser response =
      MagicOutcome.insufficientUsers insufficientMsg := by
  unfold callMagic
  rw [if_pos h]

/-- Witness for C4 with a single selected user. -/
theorem c4_insufficient_users_witness :
    callMagic [7] [] (FetchResult.ok []) =
      MagicOutcome.insufficientUsers insufficientMsg :=
  c4_insufficient_users [7] [] (FetchResult.ok []) (by decide)

/-- C8 (spec-modelled aggregator, absent from src/): the group score is
the product of the contributing users' effective scores — effective
scores [9,9,9,9,1] yield 6561, an all-6 group of five yields 6^5 = 7776,
and the all-6 restaurant outranks the other. -/
theorem c8_group_score_product :
    groupScore [9, 9, 9, 9, 1] = 6561 ∧
    groupScore [6, 6, 6, 6, 6] = 7776 ∧
    groupScore [9, 9, 9, 9, 1] < groupScore [6, 6, 6, 6, 6] ∧
    ∀ x : ℚ, ∀ l : List ℚ, groupScore (x :: l) = x * groupScore l := by
  refine ⟨by norm_num [groupScore], by norm_num [groupScore],
    by norm_num [groupScore], fun x l => by simp [groupScore]⟩

/-- C1: for a non-empty match result list that is ranked (the first row's
raw group score bounds every row's) with a positive top score — as the
backend ranker produces per the spec — renderMatchingList computes
`currMax` as the maximum raw group score over the list, renders every row
with normalized display score `10 * groupScore / currMax`, and the
top-ranked (first) row's normalized display score is exactly 10. -/
theorem c1_display_score_normalized (first : MatchEntry)
    (rest : List MatchEntry)
    (hsorted : ∀ e ∈ first :: rest, e.2.2 ≤ first.2.2)
    (hpos : 0 < first.2.2) :
    jsMax ((first :: rest).map (fun m => m.2.2)) = first.2.2 ∧
    (∀ e ∈ first :: rest,
      e.2.2 ≤ jsMax ((first :: rest).map (fun m => m.2.2))) ∧
    renderMatchingList (first :: rest) =
      RenderResult.cards ((first :: rest).map
        (fun m => (m.1,
          10 * m.2.2 / jsMax ((first :: rest).map (fun x => x.2.2))))) ∧
    10 * first.2.2 / jsMax ((first :: rest).map (fun m => m.2.2)) = 10 := by
  have hmax : jsMax ((first :: rest).map (fun m => m.2.2)) = first.2.2 := by
    simp only [List.map_cons, jsMax]
    apply foldl_max_of_le
    intro e he
    obtain ⟨a, ha, rfl⟩ := List.mem_map.mp he
    exact hsorted a (List.mem_cons_of_mem _ ha)
  refine ⟨hmax, ?_, rfl, ?_⟩
  · intro e he
    rw [hmax]
    exact hsorted e he
  · rw [hmax, mul_div_assoc, div_self (ne_of_gt hpos), mul_one]

/-- Witness for C1 at the concrete ranked list [("A","x",4),("B","y",2)]. -/
theorem c1_display_score_normalized_witness :
    jsMax ([("A", "x", (4 : ℚ)), ("B", "y", 2)].map (fun m => m.2.2)) =
      ("A", "x", (4 : ℚ)).2.2 ∧
    (∀ e ∈ [("A", "x", (4 : ℚ)), ("B", "y", 2)],
      e.2.2 ≤ jsMax ([("A", "x", (4 : ℚ)), ("B", "y", 2)].map
        (fun m => m.2.2))) ∧
    renderMatchingList [("A", "x", (4 : ℚ)), ("B", "y", 2)] =
      RenderResult.cards ([("A", "x", (4 : ℚ)), ("B", "y", 2)].map
        (fun m => (m.1, 10 * m.2.2 /
          jsMax ([("A", "x", (4 : ℚ)), ("B", "y", 2)].map
            (fun x => x.2.2))))) ∧
    10 * ("A", "x", (4 : ℚ)).2.2 /
      jsMax ([("A", "x", (4 : ℚ)), ("B", "y", 2)].map (fun m => m.2.2)) =
      10 :=
  c1_display_score_normalized ("A", "x", 4) [("B", "y", 2)]
    (by intro e he; fin_cases he <;> norm_num) (by norm_num)

/-- C5 fails on the code: user 7 has supplied an override that is empty
(an empty day-of map), yet callMagic sends for user 7 the very same empty
ratings list it sends for user 8 who supplied nothing, and under the wire
protocol the code itself documents — an empty list means the backend uses
base preferences — user 7's effective preference set is the stored base
preferences, not the supplied empty override. -/
theorem c5_counterexample :
    buildUserRatings [7, 8] [(7, ([] : DayofMap))] = [(7, []), (8, [])] ∧
    effectivePreferences [OverrideRating.restaurant 1 8] [] =
      [OverrideRating.restaurant 1 8] ∧
    [OverrideRating.restaurant 1 8] ≠ ([] : List OverrideRating) := by
  refine ⟨rfl, rfl, by simp⟩

/-- C5 amended: each selected user's row of the match payload carries the
user's day-of ratings (restaurant-keyed entries as restaurant_id+rating,
cuisine-keyed entries as cuisine+rating); a non-empty sent list fully
replaces the base preferences, while an empty sent list — produced both
when the user has no day-of map and when the map is empty — falls back to
the stored base preferences, so an empty override cannot replace them. -/
theorem c5_override_payload (selected : List ℤ)
    (byUser : List (ℤ × DayofMap)) (base : List OverrideRating)
    (userId : ℤ) (h : userId ∈ selected) :
    (userId, sentRatings byUser userId) ∈ buildUserRatings selected byUser ∧
    (∀ rid : ℤ, ∀ q : ℚ, convertEntry ⟨DayofTarget.restaurant rid, q⟩ =
      OverrideRating.restaurant rid q) ∧
    (∀ c : String, ∀ q : ℚ, convertEntry ⟨DayofTarget.cuisine c, q⟩ =
      OverrideRating.cuisine c q) ∧
    (sentRatings byUser userId ≠ [] →
      effectivePreferences base (sentRatings byUser userId) =
        sentRatings byUser userId) ∧
    (sentRatings byUser userId = [] →
      effectivePreferences base (sentRatings byUser userId) = base) := by
  refine ⟨?_, fun _ _ => rfl, fun _ _ => rfl, ?_, ?_⟩
  · unfold buildUserRatings
    exact List.mem_map.mpr ⟨userId, h, rfl⟩
  · intro hne
    unfold effectivePreferences
    rw [if_neg hne]
  · intro he
    unfold effectivePreferences
    rw [he, if_pos rfl]

/-- Witness for C5 amended: user 7 with one restaurant-keyed day-of
rating among selected users [7, 8]. -/
theorem c5_override_payload_witness :
    (7, sentRatings [(7, [("r-1", ⟨DayofTarget.restaurant 1, 9⟩)])] 7) ∈
      buildUserRatings [7, 8] [(7, [("r-1", ⟨DayofTarget.restaurant 1, 9⟩)])] ∧
    (∀ rid : ℤ, ∀ q : ℚ, convertEntry ⟨DayofTarget.restaurant rid, q⟩ =
      OverrideRating.restaurant rid q) ∧
    (∀ c : String, ∀ q : ℚ, convertEntry ⟨DayofTarget.cuisine c, q⟩ =
      OverrideRating.cuisine c q) ∧
    (sentRatings [(7, [("r-1", ⟨DayofTarget.restaurant 1, 9⟩)])] 7 ≠ [] →
      effectivePreferences [OverrideRating.cuisine "thai" 6]
        (sentRatings [(7, [("r-1", ⟨DayofTarget.restaurant 1, 9⟩)])] 7) =
        sentRatings [(7, [("r-1", ⟨DayofTarget.restaurant 1, 9⟩)])] 7) ∧
    (sentRatings [(7, [("r-1", ⟨DayofTarget.restaurant 1, 9⟩)])] 7 = [] →
      effectivePreferences [OverrideRating.cuisine "thai" 6]
        (sentRatings [(7, [("r-1", ⟨DayofTarget.restaurant 1, 9⟩)])] 7) =
        [OverrideRating.cuisine "thai" 6]) :=
  c5_override_payload [7, 8] [(7, [("r-1", ⟨DayofTarget.restaurant 1, 9⟩)])]
    [OverrideRating.cuisine "thai" 6] 7 (by decide)

/-- C7: with at least 2 selected users, an ok response with zero matched
restaurants is a valid empty result rendered as the no-matches state,
while a failed request takes the separate error-alert path and never
renders the no-matches state (its outcome is never a rendering). -/
theorem c7_empty_vs_error (selectedUsers : List ℤ)
    (byUser : List (ℤ × DayofMap)) (msg : String)
    (h : 2 ≤ selectedUsers.length) :
    callMagic selectedUsers byUser (FetchResult.ok []) =
      MagicOutcome.success (buildUserRatings selectedUsers byUser)
        RenderResult.noMatches ∧
    callMagic selectedUsers byUser (FetchResult.err msg) =
      MagicOutcome.requestError (buildUserRatings selectedUsers byUser) msg ∧
    ∀ payload : List (ℤ × List OverrideRating), ∀ result : RenderResult,
      callMagic selectedUsers byUser (FetchResult.err msg) ≠
        MagicOutcome.success payload result := by
  have hn : ¬ selectedUsers.length < 2 := not_lt.mpr h
  refine ⟨?_, ?_, ?_⟩
  · unfold callMagic
    rw [if_neg hn]
    rfl
  · unfold callMagic
    rw [if_neg hn]
  · intro payload result
    unfold callMagic
    rw [if_neg hn]
    simp

/-- Witness for C7 with users [1, 2] and error message "boom". -/
theorem c7_empty_vs_error_witness :
    callMagic [1, 2] [] (FetchResult.ok []) =
      MagicOutcome.success (buildUserRatings [1, 2] [])
        RenderResult.noMatches ∧
    callMagic [1, 2] [] (FetchResult.err "boom") =
      MagicOutcome.requestError (buildUserRatings [1, 2] []) "boom" ∧
    ∀ payload : List (ℤ × List OverrideRating), ∀ result : RenderResult,
      callMagic [1, 2] [] (FetchResult.err "boom") ≠
        MagicOutcome.success payload result :=
  c7_empty_vs_error [1, 2] [] "boom" (by decide)

/-- C6: extractCuisines yields exactly the deduplicated set of the
restaurants' comma-split, whitespace-trimmed, nonempty cuisine tags,
case-sensitive as stored — each remaining tag exactly once. -/
theorem c6_extract_cuisines (rs : List Restaurant) :
    (extractCuisines rs).Nodup ∧
    ∀ s : String, s ∈ extractCuisines rs ↔
      (s ≠ "" ∧ ∃ r ∈ rs, s ∈ (r.cuisine.splitOn ",").map String.trim) := by
  have hext : extractCuisines rs =
      (rs.foldl (fun acc r =>
        ((r.cuisine.splitOn ",").map String.trim).foldl addTag acc)
        []).mergeSort (fun a b => !decide (b < a)) := rfl
  have hperm := List.mergeSort_perm
    (rs.foldl (fun acc r =>
      ((r.cuisine.splitOn ",").map String.trim).foldl addTag acc) [])
    (fun a b => !decide (b < a))
  have hfold : ∀ (l : List Restaurant) (acc : List String) (x : String),
      x ∈ l.foldl (fun acc r =>
        ((r.cuisine.splitOn ",").map String.trim).foldl addTag acc) acc ↔
      x ∈ acc ∨
        ((∃ r ∈ l, x ∈ (r.cuisine.splitOn ",").map String.trim) ∧
          x ≠ "") := by
    intro l
    induction l with
    | nil => intro acc x; simp
    | cons r rl ih =>
      intro acc x
      simp only [List.foldl_cons, ih, mem_foldl_addTag]
      constructor
      · rintro ((h | ⟨ht, hx⟩) | ⟨⟨r', hr', ht'⟩, hx⟩)
        · exact Or.inl h
        · exact Or.inr ⟨⟨r, List.mem_cons_self r rl, ht⟩, hx⟩
        · exact Or.inr ⟨⟨r', List.mem_cons_of_mem r hr', ht'⟩, hx⟩
      · rintro (h | ⟨⟨r', hr', ht'⟩, hx⟩)
        · exact Or.inl (Or.inl h)
        · rcases List.mem_cons.mp hr' with he | hm
          · exact Or.inl (Or.inr ⟨he ▸ ht', hx⟩)
          · exact Or.inr ⟨⟨r', hm, ht'⟩, hx⟩
  have hnodup : ∀ (l : List Restaurant) (acc : List String), acc.Nodup →
      (l.foldl (fun acc r =>
        ((r.cuisine.splitOn ",").map String.trim).foldl addTag acc)
        acc).Nodup := by
    intro l
    induction l with
    | nil => intro acc h; exact h
    | cons r rl ih =>
      intro acc h
      exact ih _ (foldl_addTag_nodup _ acc h)
  constructor
  · rw [hext]
    exact hperm.nodup_iff.mpr (hnodup rs [] List.nodup_nil)
  · intro s
    rw [hext, hperm.mem_iff, hfold rs [] s]
    simp only [List.not_mem_nil, false_or]
    exact and_comm

/-- C9: toggling a restaurant (or cuisine) base preference changes only
that id's entry — added with the default rating 5.0 when absent, removed
when present — and leaves every other entry of both rating maps
unchanged. -/
theorem c9_toggle_frame (s : BaseState) (id : ℤ) (cuisine : String) :
    (toggleRestaurant s id).cuisineRatings = s.cuisineRatings ∧
    (∀ j : ℤ, mapGet (toggleRestaurant s id).restaurantRatings j =
      if j = id then
        (if mapHas s.restaurantRatings id then none else some 5)
      else mapGet s.restaurantRatings j) ∧
    (toggleCuisine s cuisine).restaurantRatings = s.restaurantRatings ∧
    ∀ c : String, mapGet (toggleCuisine s cuisine).cuisineRatings c =
      if c = cuisine then
        (if mapHas s.cuisineRatings cuisine then none else some 5)
      else mapGet s.cuisineRatings c := by
  refine ⟨?_, ?_, ?_, ?_⟩
  · unfold toggleRestaurant
    split <;> rfl
  · intro j
    by_cases hj : j = id
    · subst hj
      rw [if_pos rfl]
      by_cases hh : mapHas s.restaurantRatings j = true
      · unfold toggleRestaurant
        rw [if_pos hh, if_pos hh]
        exact mapGet_delete_self _ _
      · unfold toggleRestaurant
        rw [if_neg hh, if_neg hh]
        exact mapGet_set_self _ _ _
    · rw [if_neg hj]
      unfold toggleRestaurant
      by_cases hh : mapHas s.restaurantRatings id = true
      · rw [if_pos hh]
        exact mapGet_delete_ne _ _ _ hj
      · rw [if_neg hh]
        exact mapGet_set_ne _ _ _ _ hj
  · unfold toggleCuisine
    split <;> rfl
  · intro c
    by_cases hc : c = cuisine
    · subst hc
      rw [if_pos rfl]
      by_cases hh : mapHas s.cuisineRatings c = true
      · unfold toggleCuisine
        rw [if_pos hh, if_pos hh]
        exact mapGet_delete_self _ _
      · unfold toggleCuisine
        rw [if_neg hh, if_neg hh]
        exact mapGet_set_self _ _ _
    · rw [if_neg hc]
      unfold toggleCuisine
      by_cases hh : mapHas s.cuisineRatings cuisine = true
      · rw [if_pos hh]
        exact mapGet_delete_ne _ _ _ hc
      · rw [if_neg hh]
        exact mapGet_set_ne _ _ _ _ hc

/-- C2: when the last-selected user's day-of map already has exactly 3
entries and the toggled key (restaurant-keyed or cuisine-keyed) is not
among them, toggleDayofCuisine / toggleDayofRestaurant reject the 4th
rating with the capacity alert message and leave the whole state — in
particular the existing 3 day-of ratings — unmodified. -/
theorem c2_dayof_capacity (s : DayofState) (cuisine : String) (id : ℤ)
    (m : DayofMap)
    (hm : mapGet s.byUser s.lastSelectedUser = some m)
    (hlen : m.length = 3)
    (hc : mapHas m (cuisKey cuisine) = false)
    (hr : mapHas m (restKey id) = false) :
    toggleDayofCuisine s cuisine = (s, some capacityMsg) ∧
    toggleDayofRestaurant s id = (s, some capacityMsg) := by
  have hhas : mapHas s.byUser s.lastSelectedUser = true :=
    mapHas_of_get_some _ _ _ hm
  constructor
  · simp [toggleDayofCuisine, hhas, hm, hc, hlen]
  · simp [toggleDayofRestaurant, hhas, hm, hr, hlen]

/-- Witness for C2: user 1 already holds 3 day-of ratings; a 4th cuisine
toggle ("z") and a 4th restaurant toggle (id 7) are both rejected. -/
theorem c2_dayof_capacity_witness :
    toggleDayofCuisine
      ⟨[(1, [("c-a", ⟨DayofTarget.cuisine "a", 5⟩),
             ("c-b", ⟨DayofTarget.cuisine "b", 5⟩),
             ("r-9", ⟨DayofTarget.restaurant 9, 5⟩)])], 1⟩ "z" =
      (⟨[(1, [("c-a", ⟨DayofTarget.cuisine "a", 5⟩),
              ("c-b", ⟨DayofTarget.cuisine "b", 5⟩),
              ("r-9", ⟨DayofTarget.restaurant 9, 5⟩)])], 1⟩,
       some capacityMsg) ∧
    toggleDayofRestaurant
      ⟨[(1, [("c-a", ⟨DayofTarget.cuisine "a", 5⟩),
             ("c-b", ⟨DayofTarget.cuisine "b", 5⟩),
             ("r-9", ⟨DayofTarget.restaurant 9, 5⟩)])], 1⟩ 7 =
      (⟨[(1, [("c-a", ⟨DayofTarget.cuisine "a", 5⟩),
              ("c-b", ⟨DayofTarget.cuisine "b", 5⟩),
              ("r-9", ⟨DayofTarget.restaurant 9, 5⟩)])], 1⟩,
       some capacityMsg) :=
  c2_dayof_capacity
    ⟨[(1, [("c-a", ⟨DayofTarget.cuisine "a", 5⟩),
           ("c-b", ⟨DayofTarget.cuisine "b", 5⟩),
           ("r-9", ⟨DayofTarget.restaurant 9, 5⟩)])], 1⟩ "z" 7
    [("c-a", ⟨DayofTarget.cuisine "a", 5⟩),
     ("c-b", ⟨DayofTarget.cuisine "b", 5⟩),
     ("r-9", ⟨DayofTarget.restaurant 9, 5⟩)]
    rfl rfl rfl rfl

theorem removeDayofRating_get_ne (s : DayofState) (key : String) (u : ℤ)
    (hu : u ≠ s.lastSelectedUser) :
    mapGet (removeDayofRating s key).byUser u = mapGet s.byUser u := by
  unfold removeDayofRating
  cases hg : mapGet s.byUser s.lastSelectedUser with
  | none => rfl
  | some m => exact mapGet_set_ne _ _ _ _ hu

theorem removeDayofRating_last (s : DayofState) (key : String) :
    (removeDayofRating s key).lastSelectedUser = s.lastSelectedUser := by
  unfold removeDayofRating
  cases mapGet s.byUser s.lastSelectedUser <;> rfl

theorem updateDayofRating_get_ne (s : DayofState) (key : String) (v : ℚ)
    (u : ℤ) (hu : u ≠ s.lastSelectedUser) :
    mapGet (updateDayofRating s key v).byUser u = mapGet s.byUser u := by
  cases hg : mapGet s.byUser s.lastSelectedUser with
  | none => simp only [updateDayofRating, hg]
  | some m =>
    cases hk : mapGet m key with
    | none => simp only [updateDayofRating, hg, hk]
    | some e =>
      simp only [updateDayofRating, hg, hk]
      exact mapGet_set_ne _ _ _ _ hu

theorem updateDayofRating_last (s : DayofState) (key : String) (v : ℚ) :
    (updateDayofRating s key v).lastSelectedUser = s.lastSelectedUser := by
  cases hg : mapGet s.byUser s.lastSelectedUser with
  | none => simp only [updateDayofRating, hg]
  | some m =>
    cases hk : mapGet m key with
    | none => simp only [updateDayofRating, hg, hk]
    | some e => simp only [updateDayofRating, hg, hk]

theorem toggleDayofCuisine_get_ne (s : DayofState) (cuisine : String)
    (u : ℤ) (hu : u ≠ s.lastSelectedUser) :
    mapGet (toggleDayofCuisine s cuisine).1.byUser u = mapGet s.byUser u := by
  simp only [toggleDayofCuisine]
  split_ifs
  all_goals first
    | rfl
    | exact removeDayofRating_get_ne ⟨s.byUser, s.lastSelectedUser⟩ _ u hu
    | exact (removeDayofRating_get_ne
        ⟨mapSet s.byUser s.lastSelectedUser [], s.lastSelectedUser⟩ _ u
        hu).trans (mapGet_set_ne _ _ _ _ hu)
    | exact mapGet_set_ne _ _ _ _ hu
    | exact (mapGet_set_ne _ _ _ _ hu).trans (mapGet_set_ne _ _ _ _ hu)

theorem toggleDayofCuisine_last (s : DayofState) (cuisine : String) :
    (toggleDayofCuisine s cuisine).1.lastSelectedUser =
      s.lastSelectedUser := by
  simp only [toggleDayofCuisine]
  split_ifs
  all_goals first
    | rfl
    | exact removeDayofRating_last ⟨s.byUser, s.lastSelectedUser⟩ _
    | exact removeDayofRating_last
        ⟨mapSet s.byUser s.lastSelectedUser [], s.lastSelectedUser⟩ _

theorem toggleDayofRestaurant_get_ne (s : DayofState) (id : ℤ) (u : ℤ)
    (hu : u ≠ s.lastSelectedUser) :
    mapGet (toggleDayofRestaurant s id).1.byUser u = mapGet s.byUser u := by
  simp only [toggleDayofRestaurant]
  split_ifs
  all_goals first
    | rfl
    | exact removeDayofRating_get_ne ⟨s.byUser, s.lastSelectedUser⟩ _ u hu
    | exact (removeDayofRating_get_ne
        ⟨mapSet s.byUser s.lastSelectedUser [], s.lastSelectedUser⟩ _ u
        hu).trans (mapGet_set_ne _ _ _ _ hu)
    | exact mapGet_set_ne _ _ _ _ hu
    | exact (mapGet_set_ne _ _ _ _ hu).trans (mapGet_set_ne _ _ _ _ hu)

theorem toggleDayofRestaurant_last (s : DayofState) (id : ℤ) :
    (toggleDayofRestaurant s id).1.lastSelectedUser =
      s.lastSelectedUser := by
  simp only [toggleDayofRestaurant]
  split_ifs
  all_goals first
    | rfl
    | exact removeDayofRating_last ⟨s.byUser, s.lastSelectedUser⟩ _
    | exact removeDayofRating_last
        ⟨mapSet s.byUser s.lastSelectedUser [], s.lastSelectedUser⟩ _

/-- C10: every day-of mutation (toggle day-of cuisine, toggle day-of
restaurant, update a day-of rating value, remove a day-of rating) touches
at most the last-selected user's day-of map — every other user's lookup
and the selection itself are unchanged — and update/remove are no-ops
when that user has no day-of map or the key is absent. -/
theorem c10_dayof_frame (s : DayofState) (cuisine : String) (id : ℤ)
    (key : String) (v : ℚ) (u : ℤ) (m : DayofMap)
    (hu : u ≠ s.lastSelectedUser) :
    (mapGet (toggleDayofCuisine s cuisine).1.byUser u = mapGet s.byUser u ∧
     mapGet (toggleDayofRestaurant s id).1.byUser u = mapGet s.byUser u ∧
     mapGet (updateDayofRating s key v).byUser u = mapGet s.byUser u ∧
     mapGet (removeDayofRating s key).byUser u = mapGet s.byUser u) ∧
    ((toggleDayofCuisine s cuisine).1.lastSelectedUser =
       s.lastSelectedUser ∧
     (toggleDayofRestaurant s id).1.lastSelectedUser =
       s.lastSelectedUser ∧
     (updateDayofRating s key v).lastSelectedUser = s.lastSelectedUser ∧
     (removeDayofRating s key).lastSelectedUser = s.lastSelectedUser) ∧
    (mapGet s.byUser s.lastSelectedUser = none →
      updateDayofRating s key v = s ∧ removeDayofRating s key = s) ∧
    (mapGet s.byUser s.lastSelectedUser = some m → mapGet m key = none →
      updateDayofRating s key v = s ∧
      (keysNodup s.byUser → removeDayofRating s key = s)) := by
  refine ⟨⟨toggleDayofCuisine_get_ne s cuisine u hu,
    toggleDayofRestaurant_get_ne s id u hu,
    updateDayofRating_get_ne s key v u hu,
    removeDayofRating_get_ne s key u hu⟩,
    ⟨toggleDayofCuisine_last s cuisine,
    toggleDayofRestaurant_last s id,
    updateDayofRating_last s key v,
    removeDayofRating_last s key⟩, ?_, ?_⟩
  · intro hnone
    constructor
    · simp only [updateDayofRating, hnone]
    · simp only [removeDayofRating, hnone]
  · intro hm hk
    constructor
    · simp only [updateDayofRating, hm, hk]
    · intro hnd
      simp only [removeDayofRating, hm]
      rw [mapDelete_of_get_none m key hk]
      rw [mapSet_of_get_self s.byUser s.lastSelectedUser m hnd hm]

/-- Witness for C10: no user has a day-of map, the last-selected user is
1, and user 3 is unaffected by every mutation. -/
theorem c10_dayof_frame_witness :
    (mapGet (toggleDayofCuisine ⟨[], 1⟩ "a").1.byUser 3 =
       mapGet ([] : List (ℤ × DayofMap)) 3 ∧
     mapGet (toggleDayofRestaurant ⟨[], 1⟩ 2).1.byUser 3 =
       mapGet ([] : List (ℤ × DayofMap)) 3 ∧
     mapGet (updateDayofRating ⟨[], 1⟩ "k" 7).byUser 3 =
       mapGet ([] : List (ℤ × DayofMap)) 3 ∧
     mapGet (removeDayofRating ⟨[], 1⟩ "k").byUser 3 =
       mapGet ([] : List (ℤ × DayofMap)) 3) ∧
    ((toggleDayofCuisine ⟨[], 1⟩ "a").1.lastSelectedUser = 1 ∧
     (toggleDayofRestaurant ⟨[], 1⟩ 2).1.lastSelectedUser = 1 ∧
     (updateDayofRating ⟨[], 1⟩ "k" 7).lastSelectedUser = 1 ∧
     (removeDayofRating ⟨[], 1⟩ "k").lastSelectedUser = 1) ∧
    (mapGet ([] : List (ℤ × DayofMap)) 1 = none →
      updateDayofRating ⟨[], 1⟩ "k" 7 = ⟨[], 1⟩ ∧
      removeDayofRating ⟨[], 1⟩ "k" = ⟨[], 1⟩) ∧
    (mapGet ([] : List (ℤ × DayofMap)) 1 = some [] →
      mapGet ([] : DayofMap) "k" = none →
      updateDayofRating ⟨[], 1⟩ "k" 7 = ⟨[], 1⟩ ∧
      (keysNodup ([] : List (ℤ × DayofMap)) →
        removeDayofRating ⟨[], 1⟩ "k" = ⟨[], 1⟩)) :=
  c10_dayof_frame ⟨[], 1⟩ "a" 2 "k" 7 3 [] (by decide)

end RestaurantApp
